import Mathlib

/-!
Verification of the web-poet HTTP message model (encoding resolution,
request fingerprinting) and the declarative field-extraction protocol,
as a shallow embedding of `web_poet/page_inputs/http.py` and
`web_poet/fields.py`.

Bytes are modelled as `List Nat` (each element intended `< 256`), machine
words as `Nat` reduced modulo `2 ^ 32` where overflow matters.
-/

/-- Bytes of an HTTP body or of a hashed message. -/
abbrev Bytes := List Nat

namespace Sha1

/-- Reduction modulo `2 ^ 32`. -/
def w32 (n : Nat) : Nat := n % 4294967296

/-- Rotate the 32-bit word `n` left by `s` bits. -/
def rotl (s n : Nat) : Nat := (n * 2 ^ s + n / 2 ^ (32 - s)) % 4294967296

/-- Group bytes four at a time into big-endian 32-bit words. -/
def toWords : Bytes → List Nat
  | b0 :: b1 :: b2 :: b3 :: rest => (((b0 * 256 + b1) * 256 + b2) * 256 + b3) :: toWords rest
  | _ => []

/-- Extend the (reversed) message schedule by `k` further words:
each new word is `rotl 1` of the xor of the words 3, 8, 14 and 16
positions back. -/
def extendRev : Nat → List Nat → List Nat
  | 0, acc => acc
  | k + 1, acc =>
      let w := rotl 1 ((acc.getD 2 0) ^^^ (acc.getD 7 0) ^^^ (acc.getD 13 0) ^^^ (acc.getD 15 0))
      extendRev k (w :: acc)

/-- The SHA-1 compression state: five 32-bit words. -/
abbrev St := Nat × Nat × Nat × Nat × Nat

/-- One SHA-1 round with round index `i` and schedule word `w`. -/
def round (st : St) (iw : Nat × Nat) : St :=
  let (i, w) := iw
  let (a, b, c, d, e) := st
  let f :=
    if i < 20 then (b &&& c) ||| ((b ^^^ 4294967295) &&& d)
    else if i < 40 then b ^^^ c ^^^ d
    else if i < 60 then (b &&& c) ||| (b &&& d) ||| (c &&& d)
    else b ^^^ c ^^^ d
  let k :=
    if i < 20 then 1518500249
    else if i < 40 then 1859775393
    else if i < 60 then 2400959708
    else 3395469782
  let temp := w32 (rotl 5 a + f + e + k + w)
  (temp, a, rotl 30 b, c, d)

/-- Process one 64-byte chunk, updating the hash state. -/
def processChunk (h : St) (chunk : Bytes) : St :=
  let ws := (extendRev 64 (toWords chunk).reverse).reverse
  let (h0, h1, h2, h3, h4) := h
  let (a, b, c, d, e) := ws.enum.foldl round h
  (w32 (h0 + a), w32 (h1 + b), w32 (h2 + c), w32 (h3 + d), w32 (h4 + e))

/-- Split a byte list into 64-byte chunks (fuelled; fuel at least the
length plus one suffices since every step consumes 64 bytes). -/
def chunksAux : Nat → Bytes → List Bytes
  | 0, _ => []
  | fuel + 1, l => if l = [] then [] else l.take 64 :: chunksAux fuel (l.drop 64)

/-- Split a byte list into 64-byte chunks. -/
def chunks (l : Bytes) : List Bytes := chunksAux (l.length + 1) l

/-- Big-endian 8-byte encoding of a number (the message bit length). -/
def lenBytes (n : Nat) : Bytes :=
  [n / 2 ^ 56 % 256, n / 2 ^ 48 % 256, n / 2 ^ 40 % 256, n / 2 ^ 32 % 256,
   n / 2 ^ 24 % 256, n / 2 ^ 16 % 256, n / 2 ^ 8 % 256, n % 256]

/-- SHA-1 padding: a `0x80` byte, zeros to 56 mod 64, then the bit length. -/
def pad (msg : Bytes) : Bytes :=
  let len := msg.length
  let k := (119 - len % 64) % 64
  msg ++ 128 :: List.replicate k 0 ++ lenBytes (8 * len)

/-- Hex digit character for a nibble. -/
def hexDigit (n : Nat) : Char :=
  if n < 10 then Char.ofNat (48 + n) else Char.ofNat (87 + n)

/-- Lower-case hex rendering of a 32-bit word, 8 digits. -/
def hex8 (n : Nat) : String :=
  String.mk ((List.range 8).map fun i => hexDigit (n / 16 ^ (7 - i) % 16))

/-- The SHA-1 digest of a byte string, as a 40-character lower-case hex
string, as returned by hashlib's hexdigest. -/
def sha1hex (msg : Bytes) : String :=
  let st := (chunks (pad msg)).foldl processChunk
    (1732584193, 4023233417, 2562383102, 271733878, 3285377520)
  let (h0, h1, h2, h3, h4) := st
  hex8 h0 ++ hex8 h1 ++ hex8 h2 ++ hex8 h3 ++ hex8 h4

end Sha1

/-- UTF-8 encoding of one character. -/
def utf8EncodeChar (c : Char) : Bytes :=
  let n := c.toNat
  if n < 128 then [n]
  else if n < 2048 then [192 + n / 64, 128 + n % 64]
  else if n < 65536 then [224 + n / 4096, 128 + n / 64 % 64, 128 + n % 64]
  else [240 + n / 262144, 128 + n / 4096 % 64, 128 + n / 64 % 64, 128 + n % 64]

/-- UTF-8 encoding of a string (Python str.encode with default codec). -/
def utf8Encode (s : String) : Bytes :=
  (s.toList.map utf8EncodeChar).flatten

/-- ASCII lower-casing of a string (Python str.lower on the ASCII range,
which is all the encoding labels and header names use). -/
def lowerStr (s : String) : String :=
  String.mk (s.toList.map Char.toLower)

/-- Continuation-byte test for UTF-8 validation. -/
def utf8Cont (x : Nat) : Bool := 128 ≤ x && x < 192

/-- Strict UTF-8 validity of a byte sequence (fuelled; fuel at least the
length suffices).  Rejects overlong forms, surrogates and values above
U+10FFFF, as the Python strict utf-8 codec does. -/
def utf8ValidAux : Nat → Bytes → Bool
  | _, [] => true
  | 0, _ :: _ => false
  | fuel + 1, b :: rest =>
    if b < 128 then utf8ValidAux fuel rest
    else if 194 ≤ b && b ≤ 223 then
      match rest with
      | c1 :: r => utf8Cont c1 && utf8ValidAux fuel r
      | _ => false
    else if 224 ≤ b && b ≤ 239 then
      match rest with
      | c1 :: c2 :: r =>
        let lo1 := if b = 224 then 160 else 128
        let hi1 := if b = 237 then 159 else 191
        (lo1 ≤ c1 && c1 ≤ hi1) && utf8Cont c2 && utf8ValidAux fuel r
      | _ => false
    else if 240 ≤ b && b ≤ 244 then
      match rest with
      | c1 :: c2 :: c3 :: r =>
        let lo1 := if b = 240 then 144 else 128
        let hi1 := if b = 244 then 143 else 191
        (lo1 ≤ c1 && c1 ≤ hi1) && utf8Cont c2 && utf8Cont c3 && utf8ValidAux fuel r
      | _ => false
    else false

/-- Strict UTF-8 validity of a byte sequence. -/
def utf8Valid (b : Bytes) : Bool := utf8ValidAux b.length b

/-- Modelled from the spec: strict decodability of a byte string under a
named Python codec (`bytes.decode(enc)` raising `UnicodeError` on
failure; the decoded characters themselves are not used by the source at
these call sites).  ascii accepts bytes below 128; utf-8 accepts valid
UTF-8; cp1252 accepts every byte except the five unassigned ones
(0x81, 0x8D, 0x8F, 0x90, 0x9D). -/
def pyDecodeOk (enc : String) (b : Bytes) : Bool :=
  if enc = "ascii" then b.all (· < 128)
  else if enc = "utf-8" then utf8Valid b
  else if enc = "cp1252" then
    b.all fun x => x ≠ 129 && x ≠ 141 && x ≠ 143 && x ≠ 144 && x ≠ 157
  else false

/-- Modelled from the spec: w3lib `resolve_encoding`, which maps an
encoding label to a canonical codec name and treats an unknown encoding
name as absent (the spec: an unknown encoding name from any detection
stage falls through to the next stage rather than raising). -/
def resolveEncoding (enc : String) : Option String :=
  let e := lowerStr enc
  if e = "ascii" || e = "us-ascii" then some "ascii"
  else if e = "utf-8" || e = "utf8" then some "utf-8"
  else if e = "cp1252" || e = "windows-1252" then some "cp1252"
  else if e = "latin-1" || e = "latin1" || e = "iso-8859-1" then some "latin-1"
  else if e = "utf-16-le" then some "utf-16-le"
  else if e = "utf-16-be" then some "utf-16-be"
  else if e = "utf-32-le" then some "utf-32-le"
  else if e = "utf-32-be" then some "utf-32-be"
  else none

/-- Modelled from the spec: w3lib `read_bom`, byte-order-mark sniffing
over the UTF-8/16/32 BOM signatures, longest (4-byte) signatures tried
first. -/
def bomEncoding (b : Bytes) : Option String :=
  if b.take 4 = [0, 0, 254, 255] then some "utf-32-be"
  else if b.take 4 = [255, 254, 0, 0] then some "utf-32-le"
  else if b.take 2 = [254, 255] then some "utf-16-be"
  else if b.take 2 = [255, 254] then some "utf-16-le"
  else if b.take 3 = [239, 187, 191] then some "utf-8"
  else none

/-- Suffix of the second list after the first occurrence of `pat`, if
any occurrence exists (`pat` is expected nonempty at call sites). -/
def afterSub (pat : List Char) : List Char → Option (List Char)
  | [] => none
  | c :: rest =>
      if (c :: rest).take pat.length = pat then some ((c :: rest).drop pat.length)
      else afterSub pat rest

/-- Modelled from the spec: w3lib `http_content_type_encoding`, reading
the declared encoding off a Content-Type value's charset parameter and
resolving it (unknown names are treated as absent). -/
def httpContentTypeEncoding (ct : String) : Option String :=
  match afterSub "charset=".toList (lowerStr ct).toList with
  | none => none
  | some rest =>
      let tok := rest.takeWhile fun c =>
        c ≠ ';' && c ≠ ' ' && c ≠ '"' && c ≠ '>' && c ≠ '/'
      resolveEncoding (String.mk tok)

/-- Modelled from the spec: w3lib `html_body_declared_encoding`, reading
the encoding declared by an in-body meta/XML declaration; modelled as
locating a charset token in the ASCII rendering of the body and
resolving it (unknown names treated as absent). -/
def htmlBodyDeclaredEncoding (b : Bytes) : Option String :=
  let text := lowerStr (String.mk (b.map fun x => Char.ofNat (x % 128)))
  match afterSub "charset=".toList text.toList with
  | none => none
  | some rest =>
      let tok := rest.takeWhile fun c =>
        c ≠ ';' && c ≠ ' ' && c ≠ '"' && c ≠ '>' && c ≠ '/'
      resolveEncoding (String.mk tok)

/-- Lossy decoding of one UTF-8 scalar from the front of a byte list;
invalid input consumes one byte and produces U+FFFD. -/
def utf8LossyAux : Nat → Bytes → List Char
  | _, [] => []
  | 0, _ :: _ => []
  | fuel + 1, b :: rest =>
    if b < 128 then Char.ofNat b :: utf8LossyAux fuel rest
    else if 194 ≤ b && b ≤ 223 then
      match rest with
      | c1 :: r =>
        if utf8Cont c1 then Char.ofNat ((b - 192) * 64 + (c1 - 128)) :: utf8LossyAux fuel r
        else Char.ofNat 65533 :: utf8LossyAux fuel rest
      | _ => [Char.ofNat 65533]
    else if 224 ≤ b && b ≤ 239 then
      match rest with
      | c1 :: c2 :: r =>
        if utf8Cont c1 && utf8Cont c2 then
          Char.ofNat (((b - 224) * 64 + (c1 - 128)) * 64 + (c2 - 128)) :: utf8LossyAux fuel r
        else Char.ofNat 65533 :: utf8LossyAux fuel rest
      | _ => [Char.ofNat 65533]
    else Char.ofNat 65533 :: utf8LossyAux fuel rest

/-- Group bytes pairwise into code units, little- or big-endian. -/
def pairBytes (littleEndian : Bool) : Bytes → List Nat
  | b0 :: b1 :: rest =>
      (if littleEndian then b1 * 256 + b0 else b0 * 256 + b1) :: pairBytes littleEndian rest
  | _ => []

/-- Modelled from the spec: decoding a body to text with the chosen
encoding under browser rules (BOM stripping, error replacement).  The
exact character mapping in the single-byte high range is abstracted; no
claim depends on the decoded characters, only on the pipeline around
them. -/
def lossyDecode (enc : String) (b : Bytes) : String :=
  if enc = "ascii" || enc = "cp1252" || enc = "latin-1" then
    String.mk (b.map fun x => Char.ofNat x)
  else if enc = "utf-16-le" then
    String.mk ((pairBytes true (if b.take 2 = [255, 254] then b.drop 2 else b)).map
      fun u => Char.ofNat (if u < 55296 || 57343 < u then u else 65533))
  else if enc = "utf-16-be" then
    String.mk ((pairBytes false (if b.take 2 = [254, 255] then b.drop 2 else b)).map
      fun u => Char.ofNat (if u < 55296 || 57343 < u then u else 65533))
  else
    String.mk (utf8LossyAux b.length (if b.take 3 = [239, 187, 191] then b.drop 3 else b))

/-- Modelled from the spec: w3lib `html_to_unicode` restricted to this
codebase's call sites — resolve the encoding as the first non-null among
the Content-Type hint, the body BOM, the in-body declaration and the
auto-detect callback, falling back to the supplied default, then decode
the body once with that encoding; returns the encoding used and the
decoded text. -/
def htmlToUnicode (contentTypeHeader : String) (body : Bytes)
    (autoDetect : Bytes → Option String) (defaultEncoding : String) : String × String :=
  let enc :=
    (httpContentTypeEncoding contentTypeHeader).orElse fun _ =>
      (bomEncoding body).orElse fun _ =>
        (htmlBodyDeclaredEncoding body).orElse fun _ => autoDetect body
  let encUsed := enc.getD defaultEncoding
  (encUsed, lossyDecode encUsed body)

/-- Python truthiness of an optional string: None and the empty string
are falsy. -/
def pyTruthy : Option String → Bool
  | none => false
  | some s => s ≠ ""

/-- Python f-string rendering of an optional string (None prints as
"None"). -/
def pyStr : Option String → String
  | none => "None"
  | some s => s

/-- The HttpResponse value object from `web_poet/page_inputs/http.py`:
url, body, optional status, headers, and the optional constructor-time
encoding override (the `_encoding` attrs field).  The headers container
is modelled from the spec as an insertion-ordered list of (name, value)
pairs with case-insensitive name lookup. -/
structure HttpResponse where
  url : String
  body : Bytes
  status : Option Int := none
  headers : List (String × String) := []
  encodingArg : Option String := none

/-- Modelled from the spec: case-insensitive `get` with default on the
header container (multidict CIMultiDict, declared outside src), first
matching entry wins. -/
def headersGet (hs : List (String × String)) (name default : String) : String :=
  match hs.find? (fun p => lowerStr p.1 = lowerStr name) with
  | some p => p.2
  | none => default

/-- The mutable per-instance cache of an HttpResponse: the `_cached_text`
slot, one memo slot per `memoizemethod_noargs`-wrapped detection method
(modelled from the spec: each computed at most once and cached
independently), and a counting stub for full-body decode passes
(`html_to_unicode` invocations). -/
structure RespCache where
  cachedText : Option String := none
  memoBom : Option (Option String) := none
  memoHeadersDeclared : Option (Option String) := none
  memoBodyDeclared : Option (Option String) := none
  memoInferred : Option (Option String) := none
  decodeCount : Nat := 0

/-- A fresh response cache: nothing computed yet. -/
def freshCache : RespCache := {}

/-- The class attribute `_DEFAULT_ENCODING = "ascii"`. -/
def DEFAULT_ENCODING : String := "ascii"

namespace HttpResponse

/-- `HttpResponseBody.bom_encoding` via `_body_bom_encoding`, memoized. -/
def bodyBomEncoding (r : HttpResponse) (s : RespCache) : Option String × RespCache :=
  match s.memoBom with
  | some v => (v, s)
  | none =>
      let v := bomEncoding r.body
      (v, { s with memoBom := some v })

/-- `HttpResponseHeaders.declared_encoding` via
`_headers_declared_encoding`, memoized: the encoding detected from the
Content-Type header. -/
def headersDeclaredEncoding (r : HttpResponse) (s : RespCache) : Option String × RespCache :=
  match s.memoHeadersDeclared with
  | some v => (v, s)
  | none =>
      let v := httpContentTypeEncoding (headersGet r.headers "Content-Type" "")
      (v, { s with memoHeadersDeclared := some v })

/-- `HttpResponseBody.declared_encoding` via `_body_declared_encoding`,
memoized: the encoding declared in meta tags in the body. -/
def bodyDeclaredEncoding (r : HttpResponse) (s : RespCache) : Option String × RespCache :=
  match s.memoBodyDeclared with
  | some v => (v, s)
  | none =>
      let v := htmlBodyDeclaredEncoding r.body
      (v, { s with memoBodyDeclared := some v })

/-- The `_auto_detect_fun` trial loop: try each encoding in turn, skip
it on decode error, and return `resolve_encoding` of the first success;
fall through to None when the list is exhausted. -/
def autoDetectLoop (body : Bytes) : List String → Option String
  | [] => none
  | enc :: rest =>
      if pyDecodeOk enc body then resolveEncoding enc
      else autoDetectLoop body rest

/-- `HttpResponse._auto_detect_fun`: trial order is the default encoding
(ascii), then utf-8, then cp1252. -/
def autoDetectFun (body : Bytes) : Option String :=
  autoDetectLoop body [DEFAULT_ENCODING, "utf-8", "cp1252"]

/-- `HttpResponse._body_inferred_encoding`, memoized: run
`html_to_unicode` over the body with the Content-Type header as hint,
`_auto_detect_fun` as detector and ascii as default; store the decoded
text into the shared `_cached_text` slot as a side effect and return the
encoding that was used. -/
def bodyInferredEncoding (r : HttpResponse) (s : RespCache) : Option String × RespCache :=
  match s.memoInferred with
  | some v => (v, s)
  | none =>
      let contentType := headersGet r.headers "Content-Type" ""
      let p := htmlToUnicode contentType r.body autoDetectFun DEFAULT_ENCODING
      (some p.1,
        { s with
          memoInferred := some (some p.1)
          cachedText := some p.2
          decodeCount := s.decodeCount + 1 })

/-- `HttpResponse.encoding`: the Python `or`-chain
`_encoding or _body_bom_encoding() or _headers_declared_encoding() or
_body_declared_encoding() or _body_inferred_encoding()`, threading the
memo state left to right with Python truthiness. -/
def encoding (r : HttpResponse) (s : RespCache) : Option String × RespCache :=
  if pyTruthy r.encodingArg then (r.encodingArg, s)
  else
    let p1 := r.bodyBomEncoding s
    if pyTruthy p1.1 then p1
    else
      let p2 := r.headersDeclaredEncoding p1.2
      if pyTruthy p2.1 then p2
      else
        let p3 := r.bodyDeclaredEncoding p2.2
        if pyTruthy p3.1 then p3
        else r.bodyInferredEncoding p3.2

/-- `HttpResponse.text`: access `self.encoding` first (which may already
populate `_cached_text` while detecting the encoding); if `_cached_text`
is still None, decode once through `html_to_unicode` with a fake
`charset=...` Content-Type header and store the result in
`_cached_text`; return `_cached_text`. -/
def text (r : HttpResponse) (s : RespCache) : String × RespCache :=
  let pe := r.encoding s
  let s1 := pe.2
  match s1.cachedText with
  | some t => (t, s1)
  | none =>
      let fakeContentTypeHeader := "charset=" ++ pyStr pe.1
      let p := htmlToUnicode fakeContentTypeHeader r.body (fun _ => none) "utf-8"
      (p.2, { s1 with cachedText := some p.2, decodeCount := s1.decodeCount + 1 })

end HttpResponse


/-- Code-point key of a string: Python compares strings lexicographically
by code point. -/
def strKey (s : String) : List Nat := s.toList.map Char.toNat

/-- Strict lexicographic order on code-point lists: a proper prefix is
smaller, otherwise the first differing position decides (exactly
Python's string comparison on the code-point keys). -/
def listLt : List Nat → List Nat → Prop
  | [], [] => False
  | [], _ :: _ => True
  | _ :: _, [] => False
  | a :: as, b :: bs => a < b ∨ (a = b ∧ listLt as bs)

def listLtDec : (l1 l2 : List Nat) → Decidable (listLt l1 l2)
  | [], [] => .isFalse fun h => h
  | [], _ :: _ => .isTrue trivial
  | _ :: _, [] => .isFalse fun h => h
  | a :: as, b :: bs =>
      have : Decidable (listLt as bs) := listLtDec as bs
      inferInstanceAs (Decidable (a < b ∨ (a = b ∧ listLt as bs)))

instance : ∀ l1 l2, Decidable (listLt l1 l2) := listLtDec

/-- Non-strict lexicographic order on code-point lists. -/
def listLE (l1 l2 : List Nat) : Prop := listLt l1 l2 ∨ l1 = l2

instance : ∀ l1 l2, Decidable (listLE l1 l2) := fun l1 l2 =>
  inferInstanceAs (Decidable (listLt l1 l2 ∨ l1 = l2))

/-- Python string comparison as a Lean relation on strings. -/
def strLE (a b : String) : Prop := listLE (strKey a) (strKey b)

instance : DecidableRel strLE := fun a b =>
  inferInstanceAs (Decidable (listLE (strKey a) (strKey b)))

/-- Lexicographic order on (name, value) string pairs: exactly Python's
tuple comparison used by `sorted(req.headers.items())`. -/
def pairLE (a b : String × String) : Prop :=
  listLt (strKey a.1) (strKey b.1) ∨ (strKey a.1 = strKey b.1 ∧ listLE (strKey a.2) (strKey b.2))

instance : DecidableRel pairLE := fun a b =>
  inferInstanceAs
    (Decidable (listLt (strKey a.1) (strKey b.1) ∨
      (strKey a.1 = strKey b.1 ∧ listLE (strKey a.2) (strKey b.2))))

/-- Python `str.title()`: an alphabetic character is upper-cased when the
previous character is not alphabetic and lower-cased otherwise;
non-alphabetic characters pass through (ASCII behaviour, which is all
header names use). -/
def titleCase (s : String) : String :=
  let step : List Char × Bool → Char → List Char × Bool := fun acc c =>
    let cased := c.isAlpha
    let out := if cased then (if acc.2 then c.toLower else c.toUpper) else c
    (out :: acc.1, cased)
  String.mk (s.toList.foldl step ([], false)).1.reverse

/-- Split a character list on a separator character. -/
def splitOnChar (c : Char) : List Char → List (List Char)
  | [] => [[]]
  | x :: rest =>
      let r := splitOnChar c rest
      if x = c then [] :: r
      else
        match r with
        | h :: t => (x :: h) :: t
        | [] => [[x]]

/-- Join character lists with a separator character. -/
def joinWith (c : Char) : List (List Char) → List Char
  | [] => []
  | [p] => p
  | p :: rest => p ++ c :: joinWith c rest

/-- Modelled from the spec: w3lib `canonicalize_url` — normalize a URL so
logically-equivalent URLs compare equal, in particular sorting the query
parameters and dropping the fragment.  No claim depends on further
canonicalization details; the claims need only that it is a pure
function of the URL string. -/
def canonicalizeUrl (url : String) : String :=
  let noFrag := (splitOnChar '#' url.toList).headD []
  match splitOnChar '?' noFrag with
  | [] => ""
  | [base] => String.mk base
  | base :: rest =>
      let params := (splitOnChar '&' (joinWith '?' rest)).map String.mk
      let sorted := List.insertionSort strLE params
      String.mk base ++ "?" ++ String.mk (joinWith '&' (sorted.map String.toList))


/-- The HttpRequest value object from `web_poet/page_inputs/http.py`:
url, method (default GET), headers and raw body.  The headers container
is modelled from the spec as an insertion-ordered list of (name, value)
pairs that preserves the case in which names were inserted. -/
structure HttpRequest where
  url : String
  method : String := "GET"
  headers : List (String × String) := []
  body : Bytes := []

/-- The exact byte stream `request_fingerprint` feeds to SHA-1: the
method and a newline, the canonicalized URL and a newline, each header
rendered as Title-Case-Name:value and a newline with the header list
sorted by its raw (name, value) pairs, a blank line, then the raw body
bytes appended verbatim. -/
def fingerprintData (req : HttpRequest) : Bytes :=
  utf8Encode req.method ++ [10]
    ++ utf8Encode (canonicalizeUrl req.url) ++ [10]
    ++ ((List.insertionSort pairLE req.headers).map
        (fun p => utf8Encode (titleCase p.1 ++ ":" ++ p.2 ++ "\n"))).flatten
    ++ [10]
    ++ req.body

/-- `request_fingerprint`: the SHA-1 hex digest of `fingerprintData`. -/
def request_fingerprint (req : HttpRequest) : String :=
  Sha1.sha1hex (fingerprintData req)


/-- Python dict insertion `d[k] = True` on an insertion-ordered dict of
names: an existing key keeps its original position, a new key is
appended. -/
def dictInsert (d : List String) (k : String) : List String :=
  if k ∈ d then d else d ++ [k]

/-- A snapshot of the relevant class objects: per class identifier, the
class's own `_marked_as_fields` dict (none when the attribute is absent
from that class's own namespace) and its parent class, if any.  Classes
are numbered in creation order, so a parent always has a smaller
identifier than its subclasses. -/
structure PyHierarchy where
  own : List (Option (List String))
  parent : List (Option Nat)

/-- Walk the method resolution order from class `c` upwards and return
the first class whose own namespace carries `_marked_as_fields` — the
class whose dict `getattr(owner, _FIELDS_ATTRIBUTE)` aliases.  Fuelled;
fuel at least the number of classes suffices. -/
def findOwner (h : PyHierarchy) : Nat → Nat → Option Nat
  | 0, _ => none
  | fuel + 1, c =>
      if (h.own.getD c none).isSome then some c
      else
        match h.parent.getD c none with
        | none => none
        | some p => findOwner h fuel p

/-- `_field.__set_name__(owner, name)`: if `hasattr(owner,
_FIELDS_ATTRIBUTE)` fails — no class along the MRO has the attribute —
set a fresh empty dict on `owner` itself; then insert `name` into the
dict returned by `getattr(owner, _FIELDS_ATTRIBUTE)`, that is, into the
dict owned by the first class along the MRO that has one (mutating that
class in place). -/
def setName (h : PyHierarchy) (owner : Nat) (name : String) : PyHierarchy :=
  let h1 :=
    if (findOwner h h.own.length owner).isSome then h
    else { h with own := h.own.set owner (some []) }
  match findOwner h1 h1.own.length owner with
  | some t =>
      { h1 with own := h1.own.set t (some (dictInsert ((h1.own.getD t none).getD []) name)) }
  | none => h1

/-- Create a class with the given parent and run `__set_name__` for each
`@field`-decorated method in declaration order, as Python does at class
creation; returns the updated snapshot and the new class identifier. -/
def defineClass (h : PyHierarchy) (parentId : Option Nat) (fieldNames : List String) :
    PyHierarchy × Nat :=
  let c := h.own.length
  let h1 : PyHierarchy := { own := h.own ++ [none], parent := h.parent ++ [parentId] }
  (fieldNames.foldl (fun acc n => setName acc c n) h1, c)

/-- `getattr(obj, _FIELDS_ATTRIBUTE, {})` for an instance of class `c`:
the dict found along the MRO, or empty when absent. -/
def classFields (h : PyHierarchy) (c : Nat) : List String :=
  match findOwner h h.own.length c with
  | some t => (h.own.getD t none).getD []
  | none => []

instance : DecidableEq (Except String Nat) := fun a b =>
  match a, b with
  | .ok x, .ok y =>
      if h : x = y then .isTrue (congrArg Except.ok h)
      else .isFalse fun he => h (Except.ok.inj he)
  | .error x, .error y =>
      if h : x = y then .isTrue (congrArg Except.error h)
      else .isFalse fun he => h (Except.error.inj he)
  | .ok _, .error _ => .isFalse fun he => Except.noConfusion he
  | .error _, .ok _ => .isFalse fun he => Except.noConfusion he

/-- A field's computed value: either a plain value or an awaitable that,
when awaited, resolves to a value or raises. -/
inductive PyVal where
  | imm : Nat → PyVal
  | fut : Except String Nat → PyVal
deriving DecidableEq, Repr

/-- An instance seen by the assemblers: its registered field names in
registration order (`list(getattr(obj, _FIELDS_ATTRIBUTE, {}))`) and its
property accesses, each either returning a value or raising. -/
structure FieldsObj where
  names : List String
  access : String → Except String PyVal

/-- The target item class: modelled from the spec as a keyword-argument
constructor (the produced item is the name-to-value pairing itself)
together with `ItemAdapter.get_field_names_from_class` introspection —
the declared field names, or none when the class does not define field
names upfront. -/
structure ItemCls where
  declared : Option (List String)

/-- Access every named field in order as a property access; a raised
exception aborts and propagates. -/
def accessFields (obj : FieldsObj) : List String → Except String (List (String × PyVal))
  | [] => .ok []
  | n :: rest =>
      match obj.access n with
      | .error e => .error e
      | .ok v =>
          match accessFields obj rest with
          | .error e => .error e
          | .ok tail => .ok ((n, v) :: tail)

/-- `_without_unsupported_field_names`: when the item class declares its
field names, `list(set(field_names) & set(item_field_names))` —
materializing the intersection through Python sets, whose iteration
order is hash-dependent and unspecified; the embedding takes that
enumeration as the explicit parameter `setEnum` (constrained in theorems
to enumerate exactly the intersection's elements).  When the item class
exposes no field names, a copy of the list is returned unchanged and
nothing is raised. -/
def withoutUnsupportedFieldNames (setEnum : List String → List String)
    (itemCls : ItemCls) (fieldNames : List String) : List String :=
  match itemCls.declared with
  | none => fieldNames
  | some itemFieldNames => setEnum (fieldNames.filter (· ∈ itemFieldNames))

/-- `item_from_fields_sync`: list the registered field names, filter
them against the item class when `item_cls_fields` is set, then read
each survivor off the instance as a property access and pass the
mapping, in that order, to the item constructor. -/
def itemFromFieldsSync (setEnum : List String → List String) (obj : FieldsObj)
    (itemCls : ItemCls) (itemClsFields : Bool) : Except String (List (String × PyVal)) :=
  let fieldNames := obj.names
  let fieldNames :=
    if itemClsFields then withoutUnsupportedFieldNames setEnum itemCls fieldNames
    else fieldNames
  accessFields obj fieldNames

/-- Modelled from the spec: `ensure_awaitable` — an awaitable value is
awaited (resolving to its value or raising), a plain value passes
through unchanged. -/
def ensureAwaitable : PyVal → Except String Nat
  | .imm v => .ok v
  | .fut r => r

/-- Resolve each named value through `ensure_awaitable` in order. -/
def awaitValues (itemDict : List (String × PyVal)) :
    List String → Except String (List (String × Nat))
  | [] => .ok []
  | n :: rest =>
      match ensureAwaitable (((itemDict.find? (fun p => p.1 = n)).map Prod.snd).getD (.imm 0)) with
      | .error e => .error e
      | .ok v =>
          match awaitValues itemDict rest with
          | .error e => .error e
          | .ok tail => .ok ((n, v) :: tail)

/-- `item_from_fields` (async): first build the full dict with
`item_from_fields_sync(obj, item_cls=dict, item_cls_fields=False)` —
accessing every registered field — then filter the name list against the
item class when `item_cls_fields` is set, and await each surviving
name's value before passing the mapping to the item constructor. -/
def itemFromFields (setEnum : List String → List String) (obj : FieldsObj)
    (itemCls : ItemCls) (itemClsFields : Bool) : Except String (List (String × Nat)) :=
  match itemFromFieldsSync setEnum obj { declared := none } false with
  | .error e => .error e
  | .ok itemDict =>
      let fieldNames := itemDict.map Prod.fst
      let fieldNames :=
        if itemClsFields then withoutUnsupportedFieldNames setEnum itemCls fieldNames
        else fieldNames
      awaitValues itemDict fieldNames

/-- Specification-side resolution: the first non-null signal in a list. -/
def firstSome : List (Option String) → Option String
  | [] => none
  | o :: rest =>
      match o with
      | some v => some v
      | none => firstSome rest

/-- Python `a or b` on optional strings: `a` when truthy, else `b`. -/
def pyOr (a b : Option String) : Option String :=
  if pyTruthy a then a else b

/-- Pure value of the header-declared encoding signal of a response. -/
def headersDeclaredPure (r : HttpResponse) : Option String :=
  httpContentTypeEncoding (headersGet r.headers "Content-Type" "")

/-- Pure value of the statistically inferred encoding of a response:
what `_body_inferred_encoding` computes on first call. -/
def inferredPure (r : HttpResponse) : String :=
  (htmlToUnicode (headersGet r.headers "Content-Type" "") r.body
    HttpResponse.autoDetectFun DEFAULT_ENCODING).1

/-- Everything `request_fingerprint` hashes before the body bytes. -/
def fingerprintPreamble (req : HttpRequest) : Bytes :=
  utf8Encode req.method ++ [10]
    ++ utf8Encode (canonicalizeUrl req.url) ++ [10]
    ++ ((List.insertionSort pairLE req.headers).map
        (fun p => utf8Encode (titleCase p.1 ++ ":" ++ p.2 ++ "\n"))).flatten
    ++ [10]

/-- Example response: a UTF-16 little-endian BOM on the body while the
header declares utf-8. -/
def respBomVsHeader : HttpResponse :=
  { url := "http://example.com"
    body := [255, 254, 104, 0, 105, 0]
    headers := [("Content-Type", "text/html; charset=utf-8")] }

/-- Example response with a plain ascii body and no encoding signal at
all, driving resolution into statistical inference. -/
def respPlain : HttpResponse :=
  { url := "http://example.com", body := [104, 105] }

/-- Example request with headers in one insertion order. -/
def reqOrder1 : HttpRequest :=
  { url := "http://example.com", headers := [("Accept", "1"), ("Host", "h")] }

/-- The same request with the headers inserted in the other order. -/
def reqOrder2 : HttpRequest :=
  { url := "http://example.com", headers := [("Host", "h"), ("Accept", "1")] }

/-- Example request whose stored header names mix cases one way. -/
def reqCaseA : HttpRequest :=
  { url := "http://example.com", headers := [("a", "1"), ("B", "2")] }

/-- The case-insensitively identical request with the cases swapped. -/
def reqCaseB : HttpRequest :=
  { url := "http://example.com", headers := [("A", "1"), ("b", "2")] }

/-- Example request with body bytes "x". -/
def reqBodyX : HttpRequest := { url := "http://example.com", body := [120] }

/-- The same request with body bytes "y". -/
def reqBodyY : HttpRequest := { url := "http://example.com", body := [121] }

/-- Example instance declaring fields a, b, c in that order. -/
def objAbc : FieldsObj :=
  { names := ["a", "b", "c"]
    access := fun n =>
      if n = "a" then .ok (.imm 1)
      else if n = "b" then .ok (.imm 2)
      else if n = "c" then .ok (.imm 3)
      else .error "AttributeError" }

/-- Example instance with one plain field returning 5 and one field
returning a deferred value resolving to 7. -/
def objAsync : FieldsObj :=
  { names := ["a", "b"]
    access := fun n =>
      if n = "a" then .ok (.imm 5)
      else if n = "b" then .ok (.fut (.ok 7))
      else .error "AttributeError" }

/-- Example instance with one plain field and one field whose awaitable
raises when awaited. -/
def objBoom : FieldsObj :=
  { names := ["a", "b"]
    access := fun n =>
      if n = "a" then .ok (.imm 5)
      else if n = "b" then .ok (.fut (.error "boom"))
      else .error "AttributeError" }

theorem accessFields_spec (obj : FieldsObj) :
    ∀ {names : List String} {m : List (String × PyVal)},
      accessFields obj names = .ok m →
      m.map Prod.fst = names ∧ ∀ p ∈ m, obj.access p.1 = .ok p.2 := by
  intro names
  induction names with
  | nil =>
      intro m h
      simp only [accessFields, Except.ok.injEq] at h
      subst h
      simp
  | cons n rest ih =>
      intro m h
      simp only [accessFields] at h
      cases ha : obj.access n with
      | error e => simp [ha] at h
      | ok v =>
          simp only [ha] at h
          cases ht : accessFields obj rest with
          | error e => simp [ht] at h
          | ok tail =>
              simp only [ht, Except.ok.injEq] at h
              subst h
              obtain ⟨hfst, hmem⟩ := ih ht
              refine ⟨by simp [hfst], ?_⟩
              intro p hp
              rcases List.mem_cons.mp hp with hp | hp
              · subst hp; exact ha
              · exact hmem p hp

/-- Claim C5: when encoding detection reaches statistical inference, the
auto-detection `_auto_detect_fun` tries the candidate encodings in
exactly the fixed order ascii (the default encoding), then utf-8, then
cp1252, and returns the first candidate under which the whole body
decodes without error, returning no encoding when all three fail. -/
theorem auto_detect_tries_fixed_order (b : Bytes) :
    HttpResponse.autoDetectFun b =
      List.find? (fun enc => pyDecodeOk enc b) ["ascii", "utf-8", "cp1252"] := by
  have ra : resolveEncoding "ascii" = some "ascii" := rfl
  have ru : resolveEncoding "utf-8" = some "utf-8" := rfl
  have rc : resolveEncoding "cp1252" = some "cp1252" := rfl
  simp only [HttpResponse.autoDetectFun, HttpResponse.autoDetectLoop, DEFAULT_ENCODING]
  by_cases h1 : pyDecodeOk "ascii" b <;> by_cases h2 : pyDecodeOk "utf-8" b <;>
    by_cases h3 : pyDecodeOk "cp1252" b <;>
      simp [h1, h2, h3, ra, ru, rc, List.find?]

/-- Claim C6: the synchronous assembler with schema filtering off reads every
registered field off the instance as a property access and produces an
item whose keys appear exactly in registration (declaration) order. -/
theorem sync_assembly_declaration_order (setEnum : List String → List String)
    (obj : FieldsObj) (itemCls : ItemCls) (m : List (String × PyVal))
    (h : itemFromFieldsSync setEnum obj itemCls false = .ok m) :
    m.map Prod.fst = obj.names ∧ ∀ p ∈ m, obj.access p.1 = .ok p.2 :=
  accessFields_spec obj (by simpa [itemFromFieldsSync] using h)

/-- Witness for C6 at an instance declaring fields a, b, c in that
order: the produced item carries keys a, b, c in declaration order. -/
theorem sync_assembly_declaration_order_witness :
    itemFromFieldsSync id objAbc { declared := none } false =
      .ok [("a", .imm 1), ("b", .imm 2), ("c", .imm 3)] ∧
    ([("a", PyVal.imm 1), ("b", .imm 2), ("c", .imm 3)].map Prod.fst = ["a", "b", "c"]) := by
  have h : itemFromFieldsSync id objAbc { declared := none } false =
      .ok [("a", .imm 1), ("b", .imm 2), ("c", .imm 3)] := rfl
  exact ⟨h, (sync_assembly_declaration_order id objAbc { declared := none } _ h).1⟩

/-- Claim C4, the code evaluated at the failing input: after a class registers field
a and its subclass then declares field b, `__set_name__`'s `hasattr`
check sees the inherited dict, so the subclass never receives its own
registration dict and the name b is recorded in the ancestor's dict:
the ancestor's own registration state becomes a, b and the subclass's
own state stays absent, contradicting per-class independence. -/
theorem subclass_field_mutates_ancestor_registration :
    ((defineClass (defineClass ⟨[], []⟩ none ["a"]).1 (some 0) ["b"]).1.own.getD 0 none
        = some ["a", "b"]) ∧
    ((defineClass (defineClass ⟨[], []⟩ none ["a"]).1 (some 0) ["b"]).1.own.getD 1 none
        = none) := by
  exact ⟨rfl, rfl⟩

/-- Claim C8: the asynchronous assembler awaits a field value that is itself
an awaitable and passes a plain value through unchanged, so a class
with a plain field and a deferred field assembles both into resolved
values, in registration order. -/
theorem async_assembler_normalizes_values (setEnum : List String → List String)
    (obj : FieldsObj) (itemCls : ItemCls) (n1 n2 : String) (v1 v2 : Nat)
    (hn : obj.names = [n1, n2]) (hne : n1 ≠ n2)
    (h1 : obj.access n1 = .ok (.imm v1)) (h2 : obj.access n2 = .ok (.fut (.ok v2))) :
    itemFromFields setEnum obj itemCls false = .ok [(n1, v1), (n2, v2)] := by
  have hacc : accessFields obj obj.names = .ok [(n1, .imm v1), (n2, .fut (.ok v2))] := by
    rw [hn]
    simp [accessFields, h1, h2]
  simp [itemFromFields, itemFromFieldsSync, hacc, awaitValues, ensureAwaitable,
    List.find?, hne]

/-- Witness for C8: one plain field returning 5 and one deferred field
resolving to 7 assemble to the item a = 5, b = 7. -/
theorem async_assembler_normalizes_values_witness :
    itemFromFields id objAsync { declared := none } false = .ok [("a", 5), ("b", 7)] :=
  async_assembler_normalizes_values id objAsync { declared := none } "a" "b" 5 7 rfl
    (by decide) rfl rfl

/-- Claim C7 as amended: with schema filtering on and an item class that
declares its field names, the synchronous assembler passes exactly the
registered names that appear in the declared set — but in the
unspecified enumeration order of the Python set intersection, modelled
by the parameter `setEnum`, not necessarily registration order; when
the item class exposes no declared names, no filtering occurs and
nothing is raised. -/
theorem schema_filtering_membership (setEnum : List String → List String)
    (hEnum : ∀ l : List String, (setEnum l).Perm l.dedup)
    (obj : FieldsObj) (itemCls : ItemCls) :
    (∀ decl m, itemCls.declared = some decl →
        itemFromFieldsSync setEnum obj itemCls true = .ok m →
        (m.map Prod.fst).Perm (obj.names.filter (· ∈ decl)).dedup ∧
        ∀ p ∈ m, obj.access p.1 = .ok p.2) ∧
    (itemCls.declared = none →
        itemFromFieldsSync setEnum obj itemCls true =
          itemFromFieldsSync setEnum obj itemCls false) := by
  constructor
  · intro decl m hdecl h
    simp only [itemFromFieldsSync, withoutUnsupportedFieldNames, hdecl, if_true] at h
    obtain ⟨hfst, hmem⟩ := accessFields_spec obj h
    exact ⟨hfst ▸ hEnum _, hmem⟩
  · intro hdecl
    simp [itemFromFieldsSync, withoutUnsupportedFieldNames, hdecl]

/-- Counterexample to claim C7: registered fields a, b, c against an item
declaring a and c.  Python materializes the name intersection through
unordered sets, so the enumeration order is hash-dependent; under the
reversed enumeration — a legitimate set order — the item receives keys
c, a, not the registration order a, c, refuting the claim that the
survivors are passed in registration order. -/
theorem schema_filtering_not_registration_order :
    (List.reverse (objAbc.names.filter (· ∈ (["a", "c"] : List String)))).Perm
        (objAbc.names.filter (· ∈ (["a", "c"] : List String))).dedup ∧
    itemFromFieldsSync List.reverse objAbc { declared := some ["a", "c"] } true =
      .ok [("c", .imm 3), ("a", .imm 1)] ∧
    [("c", PyVal.imm 3), ("a", .imm 1)].map Prod.fst ≠ ["a", "c"] := by
  refine ⟨?_, rfl, by decide⟩
  have : (objAbc.names.filter (· ∈ (["a", "c"] : List String))).dedup
      = objAbc.names.filter (· ∈ (["a", "c"] : List String)) := rfl
  rw [this]
  exact List.reverse_perm _

/-- Witness for C7 at fields a, b, c against an item declaring a and c:
only a and c are passed to the constructor. -/
theorem schema_filtering_membership_witness :
    itemFromFieldsSync List.dedup objAbc { declared := some ["a", "c"] } true =
      .ok [("a", .imm 1), ("c", .imm 3)] ∧
    ([("a", PyVal.imm 1), ("c", .imm 3)].map Prod.fst).Perm
      (objAbc.names.filter (· ∈ (["a", "c"] : List String))).dedup := by
  have h : itemFromFieldsSync List.dedup objAbc { declared := some ["a", "c"] } true =
      .ok [("a", .imm 1), ("c", .imm 3)] := rfl
  exact ⟨h, ((schema_filtering_membership List.dedup (fun l => List.Perm.refl l.dedup) objAbc
      { declared := some ["a", "c"] }).1 ["a", "c"] _ rfl h).1⟩

/-- Claim C10 as amended: the asynchronous assembler accesses every registered
field's property before schema filtering, so a property access that
raises propagates even when the raising field would be excluded; but
awaiting happens after filtering and only for the surviving names, so
an excluded field's awaitable is never awaited and an exception it
would raise on await does not propagate.  The synchronous assembler, by
contrast, filters the name list before accessing any field. -/
theorem async_eval_before_filter (setEnum : List String → List String)
    (obj : FieldsObj) (itemCls : ItemCls) :
    (∀ e, accessFields obj obj.names = .error e →
        itemFromFields setEnum obj itemCls true = .error e) ∧
    (∀ itemDict m, accessFields obj obj.names = .ok itemDict →
        awaitValues itemDict
          (withoutUnsupportedFieldNames setEnum itemCls (itemDict.map Prod.fst)) = .ok m →
        itemFromFields setEnum obj itemCls true = .ok m) ∧
    (∀ m, accessFields obj (withoutUnsupportedFieldNames setEnum itemCls obj.names) = .ok m →
        itemFromFieldsSync setEnum obj itemCls true = .ok m) := by
  refine ⟨?_, ?_, ?_⟩
  · intro e h
    simp [itemFromFields, itemFromFieldsSync, h]
  · intro itemDict m h hm
    simp [itemFromFields, itemFromFieldsSync, h, hm]
  · intro m h
    simpa [itemFromFieldsSync] using h

/-- Counterexample to claim C10: with schema filtering on and an item declaring
only a, the registered field b — excluded from the item — holds an
awaitable that raises on await; the asynchronous assembler nevertheless
succeeds with the item a = 5, so the excluded field's await-time
exception does not propagate, refuting the claim that every field's
value pipeline is awaited before filtering. -/
theorem async_excluded_await_not_run :
    objBoom.access "b" = .ok (.fut (.error "boom")) ∧
    itemFromFields List.dedup objBoom { declared := some ["a"] } true = .ok [("a", 5)] :=
  ⟨rfl, rfl⟩

/-- Witness for C10: the excluded field b is still accessed (its value
appears in the intermediate dict) and the assembly succeeds with only
the surviving field a awaited. -/
theorem async_eval_before_filter_witness :
    accessFields objBoom objBoom.names =
      .ok [("a", .imm 5), ("b", .fut (.error "boom"))] ∧
    itemFromFields List.dedup objBoom { declared := some ["a"] } true = .ok [("a", 5)] := by
  have h1 : accessFields objBoom objBoom.names =
      .ok [("a", .imm 5), ("b", .fut (.error "boom"))] := rfl
  have h2 : awaitValues [("a", PyVal.imm 5), ("b", .fut (.error "boom"))]
      (withoutUnsupportedFieldNames List.dedup { declared := some ["a"] }
        ([("a", PyVal.imm 5), ("b", PyVal.fut (.error "boom"))].map Prod.fst)) =
      .ok [("a", 5)] := rfl
  exact ⟨h1,
    (async_eval_before_filter List.dedup objBoom { declared := some ["a"] }).2.1 _ _ h1 h2⟩

theorem listLt_asymm : ∀ {l1 l2 : List Nat}, listLt l1 l2 → listLt l2 l1 → False := by
  intro l1
  induction l1 with
  | nil =>
      intro l2 h1 h2
      cases l2 with
      | nil => exact h1
      | cons b bs => exact h2
  | cons a as ih =>
      intro l2 h1 h2
      cases l2 with
      | nil => exact h1
      | cons b bs =>
          simp only [listLt] at h1 h2
          rcases h1 with h1 | ⟨e1, h1⟩ <;> rcases h2 with h2 | ⟨e2, h2⟩
          · omega
          · omega
          · omega
          · exact ih h1 h2

theorem listLt_trans : ∀ {l1 l2 l3 : List Nat},
    listLt l1 l2 → listLt l2 l3 → listLt l1 l3 := by
  intro l1
  induction l1 with
  | nil =>
      intro l2 l3 h1 h2
      cases l2 with
      | nil => exact absurd h1 fun h => h
      | cons b bs =>
          cases l3 with
          | nil => exact absurd h2 fun h => h
          | cons c cs => exact trivial
  | cons a as ih =>
      intro l2 l3 h1 h2
      cases l2 with
      | nil => exact absurd h1 fun h => h
      | cons b bs =>
          cases l3 with
          | nil => exact absurd h2 fun h => h
          | cons c cs =>
              simp only [listLt] at h1 h2 ⊢
              rcases h1 with h1 | ⟨e1, h1⟩ <;> rcases h2 with h2 | ⟨e2, h2⟩
              · left; omega
              · left; omega
              · left; omega
              · exact Or.inr ⟨by omega, ih h1 h2⟩

theorem listLt_total : ∀ (l1 l2 : List Nat), listLt l1 l2 ∨ l1 = l2 ∨ listLt l2 l1 := by
  intro l1
  induction l1 with
  | nil =>
      intro l2
      cases l2 with
      | nil => exact Or.inr (Or.inl rfl)
      | cons b bs => exact Or.inl trivial
  | cons a as ih =>
      intro l2
      cases l2 with
      | nil => exact Or.inr (Or.inr trivial)
      | cons b bs =>
          rcases Nat.lt_trichotomy a b with h | h | h
          · exact Or.inl (Or.inl h)
          · rcases ih bs with h2 | h2 | h2
            · exact Or.inl (Or.inr ⟨h, h2⟩)
            · exact Or.inr (Or.inl (by rw [h, h2]))
            · exact Or.inr (Or.inr (Or.inr ⟨h.symm, h2⟩))
          · exact Or.inr (Or.inr (Or.inl h))

theorem strKey_inj {a b : String} (h : strKey a = strKey b) : a = b := by
  have hchar : a.toList = b.toList := by
    refine List.map_injective_iff.mpr ?_ h
    intro c d hcd
    exact Char.ext (UInt32.ext hcd)
  cases a
  cases b
  simp only [String.toList] at hchar
  exact congrArg String.mk hchar

instance : IsTotal (String × String) pairLE where
  total a b := by
    rcases listLt_total (strKey a.1) (strKey b.1) with h | h | h
    · exact Or.inl (Or.inl h)
    · rcases listLt_total (strKey a.2) (strKey b.2) with h2 | h2 | h2
      · exact Or.inl (Or.inr ⟨h, Or.inl h2⟩)
      · exact Or.inl (Or.inr ⟨h, Or.inr h2⟩)
      · exact Or.inr (Or.inr ⟨h.symm, Or.inl h2⟩)
    · exact Or.inr (Or.inl h)

instance : IsTrans (String × String) pairLE where
  trans a b c hab hbc := by
    rcases hab with h1 | ⟨e1, l1⟩
    · rcases hbc with h2 | ⟨e2, _⟩
      · exact Or.inl (listLt_trans h1 h2)
      · exact Or.inl (e2 ▸ h1)
    · rcases hbc with h2 | ⟨e2, l2⟩
      · exact Or.inl (e1 ▸ h2)
      · refine Or.inr ⟨e1.trans e2, ?_⟩
        rcases l1 with l1 | l1 <;> rcases l2 with l2 | l2
        · exact Or.inl (listLt_trans l1 l2)
        · exact Or.inl (l2 ▸ l1)
        · exact Or.inl (l1 ▸ l2)
        · exact Or.inr (l1.trans l2)

instance : IsAntisymm (String × String) pairLE where
  antisymm a b hab hba := by
    rcases hab with h1 | ⟨e1, l1⟩
    · rcases hba with h2 | ⟨e2, _⟩
      · exact absurd h2 fun h => listLt_asymm h1 h
      · exact absurd h1 (e2 ▸ fun h => listLt_asymm h h)
    · rcases hba with h2 | ⟨_, l2⟩
      · exact absurd h2 (e1 ▸ fun h => listLt_asymm h h)
      · refine Prod.ext (strKey_inj e1) (strKey_inj ?_)
        rcases l1 with l1 | l1
        · rcases l2 with l2 | l2
          · exact absurd l2 fun h => listLt_asymm l1 h
          · exact l2.symm
        · exact l1

theorem resolveEncoding_ne_empty {s c : String} (h : resolveEncoding s = some c) :
    c ≠ "" := by
  unfold resolveEncoding at h
  simp only [] at h
  split_ifs at h <;> simp only [Option.some.injEq] at h <;> subst h <;> decide

theorem bomEncoding_ne_empty {b : Bytes} {e : String} (h : bomEncoding b = some e) :
    e ≠ "" := by
  unfold bomEncoding at h
  split_ifs at h <;> simp only [Option.some.injEq] at h <;> subst h <;> decide

theorem httpContentTypeEncoding_ne_empty {ct : String} {e : String}
    (h : httpContentTypeEncoding ct = some e) : e ≠ "" := by
  unfold httpContentTypeEncoding at h
  simp only [] at h
  cases ha : afterSub "charset=".toList (lowerStr ct).toList with
  | none => rw [ha] at h; exact absurd h (by simp)
  | some rest => rw [ha] at h; exact resolveEncoding_ne_empty h

theorem htmlBodyDeclaredEncoding_ne_empty {b : Bytes} {e : String}
    (h : htmlBodyDeclaredEncoding b = some e) : e ≠ "" := by
  unfold htmlBodyDeclaredEncoding at h
  simp only [] at h
  cases ha : afterSub "charset=".toList
      (lowerStr (String.mk (b.map fun x => Char.ofNat (x % 128)))).toList with
  | none => rw [ha] at h; exact absurd h (by simp)
  | some rest => rw [ha] at h; exact resolveEncoding_ne_empty h

theorem autoDetectLoop_ne_empty {b : Bytes} :
    ∀ {encs : List String} {e : String},
      HttpResponse.autoDetectLoop b encs = some e → e ≠ "" := by
  intro encs
  induction encs with
  | nil => intro e h; exact absurd h (by simp [HttpResponse.autoDetectLoop])
  | cons enc rest ih =>
      intro e h
      simp only [HttpResponse.autoDetectLoop] at h
      by_cases hd : pyDecodeOk enc b
      · rw [if_pos hd] at h
        exact resolveEncoding_ne_empty h
      · rw [if_neg hd] at h
        exact ih h

theorem inferredPure_ne_empty (r : HttpResponse) : inferredPure r ≠ "" := by
  unfold inferredPure htmlToUnicode
  cases h1 : httpContentTypeEncoding (headersGet r.headers "Content-Type" "") with
  | some e => simp [Option.orElse, h1, httpContentTypeEncoding_ne_empty h1]
  | none =>
      cases h2 : bomEncoding r.body with
      | some e => simp [Option.orElse, h1, h2, bomEncoding_ne_empty h2]
      | none =>
          cases h3 : htmlBodyDeclaredEncoding r.body with
          | some e => simp [Option.orElse, h1, h2, h3, htmlBodyDeclaredEncoding_ne_empty h3]
          | none =>
              cases h4 : HttpResponse.autoDetectFun r.body with
              | some e =>
                  simp only [HttpResponse.autoDetectFun] at h4
                  simp [Option.orElse, h1, h2, h3, HttpResponse.autoDetectFun, h4,
                    autoDetectLoop_ne_empty h4]
              | none =>
                  simp only [HttpResponse.autoDetectFun] at h4
                  simp [Option.orElse, h1, h2, h3, HttpResponse.autoDetectFun, h4,
                    DEFAULT_ENCODING]

theorem encoding_fresh_val (r : HttpResponse) (h : r.encodingArg ≠ some "") :
    (r.encoding freshCache).1 =
      firstSome [r.encodingArg, bomEncoding r.body, headersDeclaredPure r,
        htmlBodyDeclaredEncoding r.body, some (inferredPure r)] := by
  have hfalse : pyTruthy none = false := rfl
  cases hA : r.encodingArg with
  | some s =>
      have hs : s ≠ "" := fun he => h (by rw [hA, he])
      have ht : pyTruthy (some s) = true := by simp [pyTruthy, hs]
      simp [HttpResponse.encoding, hA, ht, firstSome]
  | none =>
      cases hbom : bomEncoding r.body with
      | some e =>
          have ht : pyTruthy (some e) = true := by
            simp [pyTruthy, bomEncoding_ne_empty hbom]
          simp [HttpResponse.encoding, hA, hfalse, HttpResponse.bodyBomEncoding,
            freshCache, hbom, ht, firstSome]
      | none =>
          cases hhd : httpContentTypeEncoding (headersGet r.headers "Content-Type" "") with
          | some e =>
              have ht : pyTruthy (some e) = true := by
                simp [pyTruthy, httpContentTypeEncoding_ne_empty hhd]
              simp [HttpResponse.encoding, hA, hfalse, HttpResponse.bodyBomEncoding,
                HttpResponse.headersDeclaredEncoding, freshCache, hbom, hhd, ht,
                headersDeclaredPure, firstSome]
          | none =>
              cases hbd : htmlBodyDeclaredEncoding r.body with
              | some e =>
                  have ht : pyTruthy (some e) = true := by
                    simp [pyTruthy, htmlBodyDeclaredEncoding_ne_empty hbd]
                  simp [HttpResponse.encoding, hA, hfalse, HttpResponse.bodyBomEncoding,
                    HttpResponse.headersDeclaredEncoding, HttpResponse.bodyDeclaredEncoding,
                    freshCache, hbom, hhd, hbd, ht, headersDeclaredPure, firstSome]
              | none =>
                  simp [HttpResponse.encoding, hA, hfalse, HttpResponse.bodyBomEncoding,
                    HttpResponse.headersDeclaredEncoding, HttpResponse.bodyDeclaredEncoding,
                    HttpResponse.bodyInferredEncoding, freshCache, hbom, hhd, hbd,
                    headersDeclaredPure, inferredPure, firstSome]

/-- Claim C1: the resolved encoding of a response is the first non-null signal
in the fixed order: the constructor-supplied override, then BOM sniffing
on the body, then the Content-Type header declaration, then the in-body
declaration, then statistical inference; in particular, with no
override, a body carrying a BOM resolves to the BOM-derived encoding
regardless of what the header declares. -/
theorem encoding_resolution_precedence (r : HttpResponse) (h : r.encodingArg ≠ some "") :
    (r.encoding freshCache).1 =
      firstSome [r.encodingArg, bomEncoding r.body, headersDeclaredPure r,
        htmlBodyDeclaredEncoding r.body, some (inferredPure r)] ∧
    (r.encodingArg = none → ∀ e, bomEncoding r.body = some e →
      (r.encoding freshCache).1 = some e) := by
  refine ⟨encoding_fresh_val r h, ?_⟩
  intro hA e hbom
  rw [encoding_fresh_val r h, hA, hbom]
  simp [firstSome]

/-- Witness for C1: a body with a UTF-16 little-endian BOM while the
header declares utf-8 resolves to utf-16-le — the BOM outranks the
header. -/
theorem encoding_resolution_precedence_witness :
    bomEncoding respBomVsHeader.body = some "utf-16-le" ∧
    headersDeclaredPure respBomVsHeader = some "utf-8" ∧
    (respBomVsHeader.encoding freshCache).1 = some "utf-16-le" := by
  refine ⟨by decide, by decide, ?_⟩
  exact (encoding_resolution_precedence respBomVsHeader (by decide)).2 rfl "utf-16-le" (by decide)

/-- Claim C2 as amended: two requests identical after URL
canonicalization whose headers hold the same multiset of exact-case
(name, value) pairs, in any insertion order, produce the same
fingerprint: the code sorts the header pairs before hashing, so
insertion order never affects the digest. -/
theorem fingerprint_header_order_independent (r1 r2 : HttpRequest)
    (hm : r1.method = r2.method)
    (hu : canonicalizeUrl r1.url = canonicalizeUrl r2.url)
    (hb : r1.body = r2.body)
    (hh : r1.headers.Perm r2.headers) :
    request_fingerprint r1 = request_fingerprint r2 := by
  have hsort : List.insertionSort pairLE r1.headers = List.insertionSort pairLE r2.headers :=
    List.eq_of_perm_of_sorted
      (((List.perm_insertionSort pairLE r1.headers).trans hh).trans
        (List.perm_insertionSort pairLE r2.headers).symm)
      (List.sorted_insertionSort pairLE r1.headers)
      (List.sorted_insertionSort pairLE r2.headers)
  unfold request_fingerprint fingerprintData
  rw [hm, hu, hb, hsort]

set_option maxRecDepth 1000000 in
/-- Counterexample to claim C2: two requests with the same URL, method, body and
case-insensitively identical header pairs — differing only in which
case the header names were stored — produce different fingerprints:
sorting happens on the stored-case names before title-casing, so the
two requests hash their headers in different orders.  This refutes the
claim that header-name case never affects the fingerprint. -/
theorem fingerprint_case_sensitivity :
    reqCaseA.headers.map (fun p => (lowerStr p.1, p.2)) =
      reqCaseB.headers.map (fun p => (lowerStr p.1, p.2)) ∧
    reqCaseA.url = reqCaseB.url ∧ reqCaseA.method = reqCaseB.method ∧
    reqCaseA.body = reqCaseB.body ∧
    request_fingerprint reqCaseA ≠ request_fingerprint reqCaseB := by
  refine ⟨rfl, rfl, rfl, rfl, by decide⟩

/-- Witness for C2: the same header pairs inserted in two different
orders produce the same fingerprint. -/
theorem fingerprint_header_order_independent_witness :
    reqOrder1.headers.Perm reqOrder2.headers ∧
    request_fingerprint reqOrder1 = request_fingerprint reqOrder2 := by
  have hp : reqOrder1.headers.Perm reqOrder2.headers := List.Perm.swap _ _ _
  exact ⟨hp, fingerprint_header_order_independent reqOrder1 reqOrder2 rfl rfl rfl hp⟩

theorem fingerprintData_append (req : HttpRequest) :
    fingerprintData req = fingerprintPreamble req ++ req.body := by
  simp [fingerprintData, fingerprintPreamble, List.append_assoc]

/-- Claim C9: for two requests identical except for their body bytes, the
byte streams fed to SHA-1 differ — the raw body is appended verbatim
after the hashed prefix with no canonicalization, so any body
difference changes the hashed input (and hence, barring a SHA-1
collision, the fingerprint; the digests are checked to differ at the
witness inputs). -/
theorem fingerprint_body_sensitivity (r1 r2 : HttpRequest)
    (hm : r1.method = r2.method) (hu : r1.url = r2.url) (hh : r1.headers = r2.headers)
    (hb : r1.body ≠ r2.body) :
    fingerprintData r1 ≠ fingerprintData r2 ∧
    request_fingerprint r1 = Sha1.sha1hex (fingerprintData r1) ∧
    fingerprintData r1 = fingerprintPreamble r1 ++ r1.body := by
  refine ⟨?_, rfl, fingerprintData_append r1⟩
  intro heq
  rw [fingerprintData_append, fingerprintData_append] at heq
  have hpre : fingerprintPreamble r1 = fingerprintPreamble r2 := by
    unfold fingerprintPreamble
    rw [hm, hu, hh]
  rw [hpre] at heq
  exact hb (List.append_cancel_left heq)

set_option maxRecDepth 1000000 in
/-- Witness for C9: bodies x and y give different hashed inputs and
different digests. -/
theorem fingerprint_body_sensitivity_witness :
    reqBodyX.body ≠ reqBodyY.body ∧
    fingerprintData reqBodyX ≠ fingerprintData reqBodyY ∧
    request_fingerprint reqBodyX ≠ request_fingerprint reqBodyY := by
  have h := fingerprint_body_sensitivity reqBodyX reqBodyY rfl rfl rfl (by decide)
  exact ⟨by decide, h.1, by decide⟩

/-- Claim C3: on any response, the decoded text is computed at most once: a
second call to `text` returns the same string and leaves the cache
untouched, the total number of full-body decode passes after the first
call is exactly one, and when encoding resolution reaches statistical
inference the text it decodes as a side effect sits in the same
`_cached_text` slot that `text` itself returns, so no second decode
pass ever runs. -/
theorem text_cached_single_decode (r : HttpResponse) :
    (r.text (r.text freshCache).2).1 = (r.text freshCache).1 ∧
    (r.text (r.text freshCache).2).2 = (r.text freshCache).2 ∧
    (r.text freshCache).2.decodeCount = 1 ∧
    (∀ t, (r.encoding freshCache).2.cachedText = some t →
      (r.text freshCache).1 = t ∧
      (r.text freshCache).2.decodeCount = (r.encoding freshCache).2.decodeCount) := by
  cases hArg : pyTruthy r.encodingArg with
  | true =>
      simp [HttpResponse.text, HttpResponse.encoding, freshCache, hArg]
  | false =>
      cases hb : pyTruthy (bomEncoding r.body) with
      | true =>
          simp [HttpResponse.text, HttpResponse.encoding, HttpResponse.bodyBomEncoding,
            freshCache, hArg, hb]
      | false =>
          cases hh : pyTruthy (httpContentTypeEncoding (headersGet r.headers "Content-Type" "")) with
          | true =>
              simp [HttpResponse.text, HttpResponse.encoding, HttpResponse.bodyBomEncoding,
                HttpResponse.headersDeclaredEncoding, freshCache, hArg, hb, hh]
          | false =>
              cases hd : pyTruthy (htmlBodyDeclaredEncoding r.body) with
              | true =>
                  simp [HttpResponse.text, HttpResponse.encoding,
                    HttpResponse.bodyBomEncoding, HttpResponse.headersDeclaredEncoding,
                    HttpResponse.bodyDeclaredEncoding, freshCache, hArg, hb, hh, hd]
              | false =>
                  simp [HttpResponse.text, HttpResponse.encoding,
                    HttpResponse.bodyBomEncoding, HttpResponse.headersDeclaredEncoding,
                    HttpResponse.bodyDeclaredEncoding, HttpResponse.bodyInferredEncoding,
                    freshCache, hArg, hb, hh, hd]

/-- Witness for C3 at a response that falls through to statistical
inference: the text decoded during inference ("hi" from the ascii body)
is exactly what `text` returns, with a single decode pass. -/
theorem text_cached_single_decode_witness :
    (respPlain.encoding freshCache).2.cachedText = some "hi" ∧
    (respPlain.text freshCache).1 = "hi" ∧
    (respPlain.text freshCache).2.decodeCount = 1 ∧
    (respPlain.text freshCache).2.decodeCount =
      (respPlain.encoding freshCache).2.decodeCount := by
  have h : (respPlain.encoding freshCache).2.cachedText = some "hi" := by decide
  exact ⟨h, ((text_cached_single_decode respPlain).2.2.2 "hi" h).1,
    (text_cached_single_decode respPlain).2.2.1,
    ((text_cached_single_decode respPlain).2.2.2 "hi" h).2⟩
